import Mathlib

/-!
Verification model of the mouse-sovec crate (`StackBuffer`, `HeapBuffer`,
`SoVec`; files `stack_buffer.rs`, `heap_buffer.rs`, `so_vec.rs`).

The Rust memory overlay (one fixed slot reinterpreted as either the inline
buffer or the heap descriptor, discriminated by the one-byte tag) is modelled
as a tagged union `Rep`: the tag byte lies beyond the heap descriptor's bytes,
so the two views never alias observably, and a `Rep.heap` value is exactly a
slot whose tag byte holds the sentinel `u8::MAX`.

`Option` results of fallible operations model abnormal process termination
(`panic!` / `handle_alloc_error`): `none` means the process died at the point
of detection and no state reaches the caller.

Machine integers are naturals. The target is 64-bit: `usize` is 8 bytes and
the checked byte-size multiplication overflows at `2 ^ 64`. The `as u8` cast
in `StackBuffer::set_len` is kept as `% 256`. Raw memory contents are
modelled as `Nat → Option α` (`none` marks a slot never written through the
buffer); element destructors (`drop_in_place`) do not change the bytes and are
not modelled.
-/

namespace MouseSovec

/-- Number of values of `usize` on the 64-bit target, `2 ^ 64`. -/
def USIZE : Nat := 18446744073709551616

/-- Value of `isize::MAX` on the 64-bit target, `2 ^ 63 - 1`. -/
def isizeMax : Nat := 9223372036854775807

/-- Bytes of `usize` (and of a pointer) on the 64-bit target. -/
def sizeOfUsize : Nat := 8

/-- Bytes of `HeapBuffer<u8>`: a pointer plus two `usize` fields. -/
def sizeOfHeapBuffer : Nat := 3 * sizeOfUsize

/-- Bytes of `Buffer1 = [u8; size_of::<HeapBuffer<u8>>() - 1]`. -/
def buffer1Size : Nat := sizeOfHeapBuffer - 1

/-- Rust `usize::checked_mul`: `none` exactly when the product overflows. -/
def checked_mul (a b : Nat) : Option Nat :=
  if a * b < USIZE then some (a * b) else none

/-- Rust `usize::is_power_of_two`. -/
def isPow2 (n : Nat) : Bool := n != 0 && (n &&& (n - 1)) == 0

/-- Memory layout request, as in `core::alloc::Layout`. -/
structure Layout where
  size : Nat
  align : Nat

/-- Rust `Layout::from_size_align`: the align must be a power of two and the
size must not overflow `isize::MAX` after rounding up to the align. -/
def Layout.from_size_align (size align : Nat) : Option Layout :=
  if isPow2 align ∧ size ≤ isizeMax - (align - 1) then some ⟨size, align⟩
  else none

/-- The injected allocation capability (`core::alloc::GlobalAlloc`).
`alloc size align` returns a pointer, `0` being the null pointer;
`realloc ptr size align newSize` likewise. As the spec treats the allocator
as a correct external collaborator, `realloc` is assumed to preserve the
buffer contents (the model keeps the store across reallocation). -/
structure Allocator where
  alloc : Nat → Nat → Nat
  realloc : Nat → Nat → Nat → Nat → Nat

/-- Heap representation (`heap_buffer.rs`): `ptr`, `len_`, `cap_`, plus
`store`, the model of the allocated memory contents. -/
structure HeapBuffer (α : Type) where
  ptr : Nat
  store : Nat → Option α
  len_ : Nat
  cap_ : Nat

/-- `HeapBuffer::with_capacity` for an element type of size `sz` and align
`al`: checked byte-size multiplication (overflow panics via `expect`), layout
construction (failure panics), allocation (a null result calls
`handle_alloc_error`); all three fatal paths are `none`. -/
def HeapBuffer.with_capacity (sz al cap : Nat) (A : Allocator) :
    Option (HeapBuffer α) :=
  match checked_mul cap sz with
  | none => none
  | some size =>
    match Layout.from_size_align size al with
    | none => none
    | some layout =>
      let p := A.alloc layout.size layout.align
      if p = 0 then none
      else some ⟨p, fun _ => none, 0, cap⟩

/-- `HeapBuffer::len`. -/
def HeapBuffer.len (hb : HeapBuffer α) : Nat := hb.len_

/-- `HeapBuffer::set_len`. -/
def HeapBuffer.set_len (hb : HeapBuffer α) (n : Nat) : HeapBuffer α :=
  ⟨hb.ptr, hb.store, n, hb.cap_⟩

/-- `HeapBuffer::capacity`. -/
def HeapBuffer.capacity (hb : HeapBuffer α) : Nat := hb.cap_

/-- `HeapBuffer::layout`: byte layout of the current allocation,
`size_of::<T>() * capacity` with the type's align (unchecked). -/
def HeapBuffer.layout (sz al : Nat) (hb : HeapBuffer α) : Layout :=
  ⟨sz * hb.cap_, al⟩

/-- `HeapBuffer::set_capacity`: checked byte-size multiplication (overflow
panics), then `realloc` with the previous layout and the new byte size; a
null result is fatal. On success the pointer and capacity are updated. -/
def HeapBuffer.set_capacity (sz al : Nat) (hb : HeapBuffer α) (ncap : Nat)
    (A : Allocator) : Option (HeapBuffer α) :=
  match checked_mul ncap sz with
  | none => none
  | some nsize =>
    let p := A.realloc hb.ptr (hb.layout sz al).size (hb.layout sz al).align nsize
    if p = 0 then none
    else some ⟨p, hb.store, hb.len_, ncap⟩

/-- Inline representation (`stack_buffer.rs`): the raw byte region interpreted
as elements (`store`) plus the one-byte tag `len_` (`255` = sentinel). -/
structure StackBuffer (α : Type) where
  store : Nat → Option α
  len_ : Nat

/-- Modelled from the spec: `StackBuffer::new` is referenced by `SoVec::from`
but absent from `src/`; the spec fixes its behavior — a container starts in
inline mode with length 0 and no element initialized. -/
def StackBuffer.new : StackBuffer α := ⟨fun _ => none, 0⟩

/-- `StackBuffer::len`: the tag as element count. -/
def StackBuffer.len (sb : StackBuffer α) : Nat := sb.len_

/-- `StackBuffer::set_len`: stores `new_len as u8`, hence the `% 256`. -/
def StackBuffer.set_len (sb : StackBuffer α) (n : Nat) : StackBuffer α :=
  ⟨sb.store, n % 256⟩

/-- `StackBuffer::capacity` for element size `sz`:
`(size_of::<Buffer0>() + size_of::<Buffer1>()) / size_of::<T>()`. The
division is unguarded in the source; Rust division panics at runtime when
`sz = 0`, modelled as `none`. -/
def StackBuffer.capacity (sz : Nat) : Option Nat :=
  if sz = 0 then none else some ((sizeOfUsize + buffer1Size) / sz)

/-- `StackBuffer::is_available`: the tag is not the sentinel `u8::MAX`. -/
def StackBuffer.is_available (sb : StackBuffer α) : Bool := sb.len_ != 255

/-- `StackBuffer::disable`: set the tag to the sentinel, irreversibly. In the
tagged-union model this reading of the slot is retired when `SoVec.to_heap`
switches the variant; the definition is kept for completeness. -/
def StackBuffer.disable (sb : StackBuffer α) : StackBuffer α := ⟨sb.store, 255⟩

/-- The representation slot, as a tagged union of the two overlaid views. -/
inductive Rep (α : Type)
  | stack : StackBuffer α → Rep α
  | heap : HeapBuffer α → Rep α

/-- `SoVec` (`so_vec.rs`): the representation slot plus the owned allocator. -/
structure SoVec (α : Type) where
  buffer : Rep α
  alloc : Allocator

/-- `SoVec::from` / `SoVec::new`: empty, inline mode. -/
def SoVec.new (A : Allocator) : SoVec α := ⟨Rep.stack StackBuffer.new, A⟩

/-- `SoVec::is_using_stack`: reads the discriminant (`buffer.is_available()`;
a heap-mode slot always carries the sentinel tag). -/
def SoVec.is_using_stack (v : SoVec α) : Bool :=
  match v.buffer with
  | Rep.stack sb => sb.is_available
  | Rep.heap _ => false

/-- `SoVec::len`: dispatch to the active representation. -/
def SoVec.len (v : SoVec α) : Nat :=
  match v.buffer with
  | Rep.stack sb => sb.len
  | Rep.heap hb => hb.len

/-- `SoVec::is_empty`. -/
def SoVec.is_empty (v : SoVec α) : Bool := v.len == 0

/-- `SoVec::set_len`: dispatch to the active representation. -/
def SoVec.set_len (v : SoVec α) (n : Nat) : SoVec α :=
  match v.buffer with
  | Rep.stack sb => ⟨Rep.stack (sb.set_len n), v.alloc⟩
  | Rep.heap hb => ⟨Rep.heap (hb.set_len n), v.alloc⟩

/-- `SoVec::capacity`: the inline compile-time constant while inline, the heap
capacity otherwise. -/
def SoVec.capacity (sz : Nat) (v : SoVec α) : Option Nat :=
  match v.buffer with
  | Rep.stack _ => StackBuffer.capacity sz
  | Rep.heap hb => some hb.capacity

/-- Read of `*self.as_ptr().add(i)` in the active representation. -/
def SoVec.read (v : SoVec α) (i : Nat) : Option α :=
  match v.buffer with
  | Rep.stack sb => sb.store i
  | Rep.heap hb => hb.store i

/-- Write of `core::ptr::write(self.as_mut_ptr().add(i), x)`. -/
def SoVec.write (v : SoVec α) (i : Nat) (x : α) : SoVec α :=
  match v.buffer with
  | Rep.stack sb =>
    ⟨Rep.stack ⟨fun j => if j = i then some x else sb.store j, sb.len_⟩, v.alloc⟩
  | Rep.heap hb =>
    ⟨Rep.heap ⟨hb.ptr, fun j => if j = i then some x else hb.store j, hb.len_, hb.cap_⟩,
      v.alloc⟩

/-- `SoVec::to_heap`: overwrite the slot with the heap descriptor and disable
the inline view — one variant switch in the union model. -/
def SoVec.to_heap (v : SoVec α) (hb : HeapBuffer α) : SoVec α :=
  ⟨Rep.heap hb, v.alloc⟩

/-- `SoVec::with_capacity`: start inline; if the requested capacity exceeds
the inline capacity, allocate a heap buffer of exactly that capacity and
transition (`to_heap`). Computing the inline capacity of a zero-sized type
panics (`none`). -/
def SoVec.with_capacity (sz al c : Nat) (A : Allocator) : Option (SoVec α) :=
  let ret : SoVec α := SoVec.new A
  match StackBuffer.capacity sz with
  | none => none
  | some icap =>
    if icap < c then
      match (HeapBuffer.with_capacity sz al c A : Option (HeapBuffer α)) with
      | none => none
      | some hb => some (ret.to_heap hb)
    else some ret

/-- `SoVec::reserve_exact`: `new_capacity = self.len() + additional`, a plain
`usize` addition that wraps around in release builds — hence the `% USIZE` at
each use of the bound (debug builds panic on the overflow; the model follows
release semantics throughout). No-op when `new_capacity` fits the current
capacity — in particular a wrapped sum, being at most `len - 1 ≤ cap`, always
no-ops. Otherwise, while inline: allocate a heap buffer of exactly
`new_capacity`, bulk-copy (`copy_nonoverlapping`) the `len` inline elements,
set its length, and transition; while heap-backed: grow the heap buffer to
exactly `new_capacity`. -/
def SoVec.reserve_exact (sz al : Nat) (v : SoVec α) (additional : Nat) :
    Option (SoVec α) :=
  match SoVec.capacity sz v with
  | none => none
  | some cap =>
    if (v.len + additional) % USIZE ≤ cap then some v
    else
      match v.buffer with
      | Rep.stack sb =>
        match (HeapBuffer.with_capacity sz al ((v.len + additional) % USIZE)
            v.alloc : Option (HeapBuffer α)) with
        | none => none
        | some hb =>
          let copied : HeapBuffer α :=
            ⟨hb.ptr, fun i => if i < sb.len then sb.store i else hb.store i,
              hb.len_, hb.cap_⟩
          some (v.to_heap (copied.set_len sb.len))
      | Rep.heap hb =>
        match hb.set_capacity sz al ((v.len + additional) % USIZE) v.alloc with
        | none => none
        | some hb2 => some ⟨Rep.heap hb2, v.alloc⟩

/-- `SoVec::push` (caller-enforced precondition `len < capacity`): write the
element at index `len`, then `set_len (len + 1)`. -/
def SoVec.push (v : SoVec α) (x : α) : SoVec α :=
  (v.write v.len x).set_len (v.len + 1)

/-- `SoVec::pop`: `None` when empty; otherwise `set_len (len - 1)` and read
the element now just past the end out of storage. -/
def SoVec.pop (v : SoVec α) : Option α × SoVec α :=
  if v.len = 0 then ⟨none, v⟩
  else
    let w := v.set_len (v.len - 1)
    ⟨w.read w.len, w⟩

/-- `SoVec::truncate`: no-op when `len ≤ new_len`; otherwise drop the tail in
place (destructors do not change the bytes) and `set_len`. -/
def SoVec.truncate (v : SoVec α) (n : Nat) : SoVec α :=
  if v.len ≤ n then v else v.set_len n

/-- `SoVec::clear` = `truncate 0`. -/
def SoVec.clear (v : SoVec α) : SoVec α := v.truncate 0

/-- `SoVec::shrink_to_fit`: no-op while inline; while heap-backed,
`set_capacity` to the current length. -/
def SoVec.shrink_to_fit (sz al : Nat) (v : SoVec α) : Option (SoVec α) :=
  match v.buffer with
  | Rep.stack _ => some v
  | Rep.heap hb =>
    match hb.set_capacity sz al v.len v.alloc with
    | none => none
    | some hb2 => some ⟨Rep.heap hb2, v.alloc⟩

/-- Pushing a list of elements in order (`push` under its precondition). -/
def SoVec.pushAll (v : SoVec α) (xs : List α) : SoVec α :=
  xs.foldl SoVec.push v

/-- Popping `n` times, collecting the returned values in pop order. -/
def SoVec.popN : SoVec α → Nat → List (Option α) × SoVec α
  | v, 0 => ⟨[], v⟩
  | v, n + 1 =>
    let p := v.pop
    let q := SoVec.popN p.2 n
    ⟨p.1 :: q.1, q.2⟩

/-- Well-formedness of the discriminant: in inline mode the tag byte is below
the sentinel. Heap mode keeps the sentinel by construction of the union. -/
def SoVec.WF (v : SoVec α) : Prop :=
  match v.buffer with
  | Rep.stack sb => sb.len_ < 255
  | Rep.heap _ => True

/-- One public mutating operation, under its documented caller-enforced
precondition (`push` needs `len < capacity`, `set_len` needs `n ≤ capacity`);
the fallible operations step only when the process survives. -/
inductive SoVec.Step (sz al : Nat) : SoVec α → SoVec α → Prop
  | push (v : SoVec α) (x : α) (cap : Nat) (hc : SoVec.capacity sz v = some cap)
      (hlt : v.len < cap) : SoVec.Step sz al v (v.push x)
  | pop (v : SoVec α) : SoVec.Step sz al v (v.pop).2
  | truncate (v : SoVec α) (n : Nat) : SoVec.Step sz al v (v.truncate n)
  | clear (v : SoVec α) : SoVec.Step sz al v v.clear
  | set_len (v : SoVec α) (n cap : Nat) (hc : SoVec.capacity sz v = some cap)
      (hle : n ≤ cap) : SoVec.Step sz al v (v.set_len n)
  | reserve_exact (v w : SoVec α) (k : Nat)
      (h : SoVec.reserve_exact sz al v k = some w) : SoVec.Step sz al v w
  | shrink_to_fit (v w : SoVec α)
      (h : SoVec.shrink_to_fit sz al v = some w) : SoVec.Step sz al v w

/-- Which union variant the slot holds (structural view of the discriminant). -/
def SoVec.isStackRep (v : SoVec α) : Bool :=
  match v.buffer with
  | Rep.stack _ => true
  | Rep.heap _ => false

/-- An always-succeeding allocator for concrete evaluations: every request
returns the non-null pointer `1`. -/
def trivAlloc : Allocator := ⟨fun _ _ => 1, fun _ _ _ _ => 1⟩

/-- An always-failing allocator: every request returns the null pointer. -/
def nullAlloc : Allocator := ⟨fun _ _ => 0, fun _ _ _ _ => 0⟩

/-- A concrete heap buffer used in closed instantiations. -/
def hbW : HeapBuffer Nat := ⟨1, fun _ => none, 0, 5⟩

/-- A fresh inline container over `Nat` (element size 1, align 8 in the
concrete instantiations below). -/
def c1v : SoVec Nat := SoVec.new trivAlloc

/-- A fresh inline container for the reserve instantiation. -/
def c2v : SoVec Nat := SoVec.new trivAlloc

/-- A heap-backed container of length 2 and capacity 2 (as left by a grow to
heap followed by two pushes and `shrink_to_fit`), used to exhibit the
release-mode overflow of `reserve_exact`'s `usize` addition. -/
def c2h : SoVec Nat :=
  ⟨Rep.heap ⟨1, fun i => if i < 2 then some 7 else none, 2, 2⟩, trivAlloc⟩

/-- A fresh inline container for the pop instantiation. -/
def c4v : SoVec Nat := SoVec.new trivAlloc

/-- An inline container holding two elements. -/
def c5v : SoVec Nat := ((SoVec.new trivAlloc).push 10).push 20

/-- The result of forcing `c5v` through the inline→heap transition. -/
def c5w : SoVec Nat := (SoVec.reserve_exact 1 8 c5v 40).getD c5v

/-- A concrete heap-backed container (empty, capacity 5). -/
def c6v : SoVec Nat := ⟨Rep.heap ⟨1, fun _ => none, 0, 5⟩, trivAlloc⟩

/-- A fresh inline container for the shrink instantiation. -/
def c7s : SoVec Nat := SoVec.new trivAlloc

/-- A concrete heap-backed container of length 2 and capacity 5. -/
def c7v : SoVec Nat :=
  ⟨Rep.heap ⟨1, fun i => if i < 2 then some 7 else none, 2, 5⟩, trivAlloc⟩

/-- The result of shrinking `c7v` to fit. -/
def c7w : SoVec Nat := (SoVec.shrink_to_fit 1 8 c7v).getD c7v

/-- A heap-backed container of length 0 obtained through the public
constructor (`with_capacity 40` over a one-byte element type). -/
def c8v : SoVec Nat :=
  (SoVec.with_capacity 1 8 40 trivAlloc).getD (SoVec.new trivAlloc)

/-- The result of `shrink_to_fit` on the empty heap-backed `c8v`. -/
def c8w : SoVec Nat := (SoVec.shrink_to_fit 1 8 c8v).getD c8v

/-- A fresh inline container over a zero-sized element type. -/
def c10v : SoVec Unit := SoVec.new trivAlloc

section Lemmas

variable {α : Type}

lemma stackBuffer_capacity_le {sz cap : Nat}
    (h : StackBuffer.capacity sz = some cap) : cap ≤ 31 := by
  unfold StackBuffer.capacity at h
  by_cases h0 : sz = 0
  · simp [h0] at h
  · simp [h0] at h
    have h31 : sizeOfUsize + buffer1Size = 31 := rfl
    rw [h31] at h
    calc cap = 31 / sz := h.symm
    _ ≤ 31 := Nat.div_le_self 31 sz

lemma write_len (v : SoVec α) (i : Nat) (x : α) : (v.write i x).len = v.len := by
  rcases v with ⟨buf, A⟩
  cases buf <;> rfl

lemma write_capacity (sz : Nat) (v : SoVec α) (i : Nat) (x : α) :
    (v.write i x).capacity sz = v.capacity sz := by
  rcases v with ⟨buf, A⟩
  cases buf <;> rfl

lemma write_isStackRep (v : SoVec α) (i : Nat) (x : α) :
    (v.write i x).isStackRep = v.isStackRep := by
  rcases v with ⟨buf, A⟩
  cases buf <;> rfl

lemma write_read_self (v : SoVec α) (i : Nat) (x : α) :
    (v.write i x).read i = some x := by
  rcases v with ⟨buf, A⟩
  cases buf <;> simp [SoVec.write, SoVec.read]

lemma write_read_ne (v : SoVec α) {i j : Nat} (x : α) (h : j ≠ i) :
    (v.write i x).read j = v.read j := by
  rcases v with ⟨buf, A⟩
  cases buf <;> simp [SoVec.write, SoVec.read, h]

lemma set_len_read (v : SoVec α) (n i : Nat) :
    (v.set_len n).read i = v.read i := by
  rcases v with ⟨buf, A⟩
  cases buf <;> rfl

lemma set_len_capacity (sz : Nat) (v : SoVec α) (n : Nat) :
    (v.set_len n).capacity sz = v.capacity sz := by
  rcases v with ⟨buf, A⟩
  cases buf <;> rfl

lemma set_len_isStackRep (v : SoVec α) (n : Nat) :
    (v.set_len n).isStackRep = v.isStackRep := by
  rcases v with ⟨buf, A⟩
  cases buf <;> rfl

lemma set_len_len (v : SoVec α) (n : Nat)
    (h : v.isStackRep = true → n < 256) : (v.set_len n).len = n := by
  rcases v with ⟨buf, A⟩
  cases buf with
  | stack sb =>
    have hn : n < 256 := h rfl
    simp [SoVec.set_len, SoVec.len, StackBuffer.set_len, StackBuffer.len,
      Nat.mod_eq_of_lt hn]
  | heap hb => rfl

lemma push_len (v : SoVec α) (x : α)
    (h : v.isStackRep = true → v.len + 1 < 256) : (v.push x).len = v.len + 1 := by
  have hw : (v.write v.len x).isStackRep = true → v.len + 1 < 256 := by
    intro hs
    rw [write_isStackRep] at hs
    exact h hs
  unfold SoVec.push
  exact set_len_len _ _ hw

lemma push_capacity (sz : Nat) (v : SoVec α) (x : α) :
    (v.push x).capacity sz = v.capacity sz := by
  unfold SoVec.push
  rw [set_len_capacity, write_capacity]

lemma push_isStackRep (v : SoVec α) (x : α) :
    (v.push x).isStackRep = v.isStackRep := by
  unfold SoVec.push
  rw [set_len_isStackRep, write_isStackRep]

lemma push_read_self (v : SoVec α) (x : α) : (v.push x).read v.len = some x := by
  unfold SoVec.push
  rw [set_len_read, write_read_self]

lemma push_read_ne (v : SoVec α) (x : α) {i : Nat} (h : i ≠ v.len) :
    (v.push x).read i = v.read i := by
  unfold SoVec.push
  rw [set_len_read, write_read_ne _ _ h]

lemma pop_eq (v : SoVec α) (h0 : v.len ≠ 0)
    (hb : v.isStackRep = true → v.len - 1 < 256) :
    v.pop = ⟨v.read (v.len - 1), v.set_len (v.len - 1)⟩ := by
  have hl : (v.set_len (v.len - 1)).len = v.len - 1 := set_len_len _ _ hb
  unfold SoVec.pop
  rw [if_neg h0]
  show ((v.set_len (v.len - 1)).read ((v.set_len (v.len - 1)).len),
      v.set_len (v.len - 1)) = _
  rw [hl, set_len_read]

lemma popN_succ (v : SoVec α) (n : Nat) :
    v.popN (n + 1) =
      ⟨((v.popN n).1 ++ [((v.popN n).2.pop).1]), ((v.popN n).2.pop).2⟩ := by
  induction n generalizing v with
  | zero => simp [SoVec.popN]
  | succ n ih =>
    show SoVec.popN v (n + 2) = _
    rw [show SoVec.popN v (n + 2) =
        ⟨(v.pop).1 :: (SoVec.popN (v.pop).2 (n + 1)).1,
          (SoVec.popN (v.pop).2 (n + 1)).2⟩ from rfl]
    rw [ih (v.pop).2]
    rw [show SoVec.popN v (n + 1) =
        ⟨(v.pop).1 :: (SoVec.popN (v.pop).2 n).1,
          (SoVec.popN (v.pop).2 n).2⟩ from rfl]
    simp

lemma pushAll_popN (sz : Nat) (xs : List α) :
    ∀ (v : SoVec α) (cap : Nat), v.capacity sz = some cap →
      v.len + xs.length ≤ cap →
      ∃ u : SoVec α,
        (v.pushAll xs).popN xs.length = ⟨xs.reverse.map some, u⟩
        ∧ u.len = v.len ∧ u.capacity sz = some cap
        ∧ u.isStackRep = v.isStackRep
        ∧ ∀ i, i < v.len → u.read i = v.read i := by
  induction xs with
  | nil =>
    intro v cap hc _
    exact ⟨v, rfl, rfl, hc, rfl, fun i _ => rfl⟩
  | cons x xs ih =>
    intro v cap hc hf
    have hf' : v.len + (xs.length + 1) ≤ cap := by simpa using hf
    have hstackb : v.isStackRep = true → cap ≤ 31 := by
      intro hs
      rcases v with ⟨buf, A⟩
      cases buf with
      | stack sb => exact stackBuffer_capacity_le (by simpa [SoVec.capacity] using hc)
      | heap hb => simp [SoVec.isStackRep] at hs
    have hlt : v.isStackRep = true → v.len + 1 < 256 := by
      intro hs
      have := hstackb hs
      omega
    have hlen2 : (v.push x).len = v.len + 1 := push_len v x hlt
    have hcap2 : (v.push x).capacity sz = some cap := by rw [push_capacity]; exact hc
    have hrep2 : (v.push x).isStackRep = v.isStackRep := push_isStackRep v x
    have hf2 : (v.push x).len + xs.length ≤ cap := by rw [hlen2]; omega
    obtain ⟨u, hu, hulen, hucap, hurep, huread⟩ := ih (v.push x) cap hcap2 hf2
    have hune : u.len ≠ 0 := by rw [hulen, hlen2]; exact Nat.succ_ne_zero _
    have hub : u.isStackRep = true → u.len - 1 < 256 := by
      intro hs
      rw [hurep, hrep2] at hs
      have := hstackb hs
      rw [hulen, hlen2]
      omega
    have hpop : u.pop = ⟨u.read (u.len - 1), u.set_len (u.len - 1)⟩ :=
      pop_eq u hune hub
    have hu1 : u.len - 1 = v.len := by rw [hulen, hlen2]; omega
    have hval : u.read (u.len - 1) = some x := by
      rw [hu1]
      have hv : v.len < (v.push x).len := by rw [hlen2]; omega
      rw [huread v.len hv, push_read_self]
    refine ⟨u.set_len (u.len - 1), ?_, ?_, ?_, ?_, ?_⟩
    · have hpa : v.pushAll (x :: xs) = (v.push x).pushAll xs := rfl
      have hln : (x :: xs).length = xs.length + 1 := rfl
      rw [hpa, hln, popN_succ, hu]
      simp only []
      rw [hpop, hval]
      simp
    · rw [set_len_len u (u.len - 1) hub, hu1]
    · rw [set_len_capacity]; exact hucap
    · rw [set_len_isStackRep, hurep, hrep2]
    · intro i hi
      rw [set_len_read]
      have hi2 : i < (v.push x).len := by rw [hlen2]; omega
      rw [huread i hi2, push_read_ne]
      omega

lemma WF_def (v : SoVec α) : v.WF ↔ (v.isStackRep = true → v.len < 255) := by
  rcases v with ⟨buf, A⟩
  cases buf with
  | stack sb => simp [SoVec.WF, SoVec.isStackRep, SoVec.len, StackBuffer.len]
  | heap hb => simp [SoVec.WF, SoVec.isStackRep]

lemma capacity_le_of_stack {sz cap : Nat} (v : SoVec α)
    (hc : SoVec.capacity sz v = some cap) (hs : v.isStackRep = true) :
    cap ≤ 31 := by
  rcases v with ⟨buf, A⟩
  cases buf with
  | stack sb => exact stackBuffer_capacity_le (by simpa [SoVec.capacity] using hc)
  | heap hb => simp [SoVec.isStackRep] at hs

lemma WF_set_len (v : SoVec α) (n : Nat)
    (hn : v.isStackRep = true → n < 255) : (v.set_len n).WF := by
  rw [WF_def]
  intro hs
  rw [set_len_isStackRep] at hs
  rw [set_len_len v n (fun h2 => by have := hn h2; omega)]
  exact hn hs

lemma WF_of_heapRep (v : SoVec α) (h : v.isStackRep = false) : v.WF := by
  rcases v with ⟨buf, A⟩
  cases buf with
  | stack sb => simp [SoVec.isStackRep] at h
  | heap hb => trivial

lemma is_using_stack_eq (v : SoVec α) (hwf : v.WF) :
    v.is_using_stack = v.isStackRep := by
  rcases v with ⟨buf, A⟩
  cases buf with
  | stack sb =>
    have hlt : sb.len_ < 255 := hwf
    simp [SoVec.is_using_stack, SoVec.isStackRep, StackBuffer.is_available]
    omega
  | heap hb => rfl

lemma pop_isStackRep (v : SoVec α) : (v.pop).2.isStackRep = v.isStackRep := by
  unfold SoVec.pop
  by_cases h : v.len = 0
  · rw [if_pos h]
  · rw [if_neg h]
    exact set_len_isStackRep v (v.len - 1)

lemma reserve_exact_result (sz al k : Nat) (v w : SoVec α)
    (h : SoVec.reserve_exact sz al v k = some w) :
    w = v ∨ w.isStackRep = false := by
  rcases v with ⟨buf, A⟩
  cases buf with
  | stack sb =>
    simp only [SoVec.reserve_exact, SoVec.capacity] at h
    split at h
    · exact Option.noConfusion h
    · split at h
      · left; exact (Option.some.inj h).symm
      · split at h
        · exact Option.noConfusion h
        · right
          rw [← Option.some.inj h]
          rfl
  | heap hb =>
    simp only [SoVec.reserve_exact, SoVec.capacity] at h
    split at h
    · left; exact (Option.some.inj h).symm
    · split at h
      · exact Option.noConfusion h
      · right
        rw [← Option.some.inj h]
        rfl

lemma shrink_result (sz al : Nat) (v w : SoVec α)
    (h : SoVec.shrink_to_fit sz al v = some w) :
    w = v ∨ w.isStackRep = false := by
  rcases v with ⟨buf, A⟩
  cases buf with
  | stack sb =>
    simp only [SoVec.shrink_to_fit] at h
    left; exact (Option.some.inj h).symm
  | heap hb =>
    simp only [SoVec.shrink_to_fit] at h
    split at h
    · exact Option.noConfusion h
    · right
      rw [← Option.some.inj h]
      rfl

lemma step_preserves (sz al : Nat) (v w : SoVec α) (hs : SoVec.Step sz al v w)
    (hwf : v.WF) : w.WF ∧ (v.isStackRep = false → w.isStackRep = false) := by
  cases hs with
  | push x cap hc hlt =>
    constructor
    · rw [WF_def]
      intro hs2
      rw [push_isStackRep] at hs2
      have hcap31 := capacity_le_of_stack v hc hs2
      rw [push_len v x (fun h2 => by have := capacity_le_of_stack v hc h2; omega)]
      omega
    · intro h2
      rw [push_isStackRep]
      exact h2
  | pop =>
    by_cases h0 : v.len = 0
    · have hv : (v.pop).2 = v := by unfold SoVec.pop; rw [if_pos h0]
      rw [hv]
      exact ⟨hwf, id⟩
    · have hb2 : v.isStackRep = true → v.len - 1 < 256 := by
        intro hs2
        have := (WF_def v).mp hwf hs2
        omega
      rw [pop_eq v h0 hb2]
      constructor
      · exact WF_set_len v (v.len - 1)
          (fun hs2 => by have := (WF_def v).mp hwf hs2; omega)
      · intro h2
        rw [set_len_isStackRep]
        exact h2
  | truncate n =>
    by_cases hn : v.len ≤ n
    · have hv : v.truncate n = v := by unfold SoVec.truncate; rw [if_pos hn]
      rw [hv]
      exact ⟨hwf, id⟩
    · have hv : v.truncate n = v.set_len n := by
        unfold SoVec.truncate; rw [if_neg hn]
      rw [hv]
      constructor
      · exact WF_set_len v n
          (fun hs2 => by have := (WF_def v).mp hwf hs2; omega)
      · intro h2
        rw [set_len_isStackRep]
        exact h2
  | clear =>
    by_cases hn : v.len ≤ 0
    · have hv : v.clear = v := by
        unfold SoVec.clear SoVec.truncate; rw [if_pos hn]
      rw [hv]
      exact ⟨hwf, id⟩
    · have hv : v.clear = v.set_len 0 := by
        unfold SoVec.clear SoVec.truncate; rw [if_neg hn]
      rw [hv]
      constructor
      · exact WF_set_len v 0 (fun _ => by omega)
      · intro h2
        rw [set_len_isStackRep]
        exact h2
  | set_len n cap hc hle =>
    constructor
    · exact WF_set_len v n
        (fun hs2 => by have := capacity_le_of_stack v hc hs2; omega)
    · intro h2
      rw [set_len_isStackRep]
      exact h2
  | reserve_exact w2 k h =>
    rcases reserve_exact_result sz al k v w h with rfl | hheap
    · exact ⟨hwf, id⟩
    · exact ⟨WF_of_heapRep w hheap, fun _ => hheap⟩
  | shrink_to_fit w2 h =>
    rcases shrink_result sz al v w h with rfl | hheap
    · exact ⟨hwf, id⟩
    · exact ⟨WF_of_heapRep w hheap, fun _ => hheap⟩

lemma WF_new (A : Allocator) : (SoVec.new A : SoVec α).WF := by
  rw [WF_def]
  intro _
  show (0 : Nat) < 255
  omega

lemma checked_mul_eq_none {a b : Nat} (h : USIZE ≤ a * b) :
    checked_mul a b = none := by
  unfold checked_mul
  rw [if_neg (by omega)]

lemma checked_mul_eq_some {a b s : Nat} (h : checked_mul a b = some s) :
    a * b < USIZE ∧ s = a * b := by
  unfold checked_mul at h
  split at h
  · rename_i hlt
    exact ⟨hlt, (Option.some.inj h).symm⟩
  · exact Option.noConfusion h

lemma from_size_align_some {s al : Nat} {L : Layout}
    (h : Layout.from_size_align s al = some L) :
    L.size = s ∧ L.align = al := by
  unfold Layout.from_size_align at h
  split at h
  · constructor
    · rw [← Option.some.inj h]
    · rw [← Option.some.inj h]
  · exact Option.noConfusion h

lemma heap_with_capacity_some {sz al c : Nat} {A : Allocator}
    {hb : HeapBuffer α} (h : HeapBuffer.with_capacity sz al c A = some hb) :
    hb.cap_ = c ∧ hb.len_ = 0 ∧ hb.ptr ≠ 0 := by
  unfold HeapBuffer.with_capacity at h
  split at h
  · exact Option.noConfusion h
  · split at h
    · exact Option.noConfusion h
    · dsimp only [] at h
      split at h
      · exact Option.noConfusion h
      · rename_i hp
        rw [← Option.some.inj h]
        exact ⟨rfl, rfl, hp⟩

lemma heap_set_capacity_some {sz al n : Nat} {A : Allocator}
    {hb hb2 : HeapBuffer α}
    (h : HeapBuffer.set_capacity sz al hb n A = some hb2) :
    hb2.cap_ = n ∧ hb2.len_ = hb.len_ ∧ hb2.store = hb.store ∧ hb2.ptr ≠ 0 := by
  unfold HeapBuffer.set_capacity at h
  split at h
  · exact Option.noConfusion h
  · dsimp only [] at h
    split at h
    · exact Option.noConfusion h
    · rename_i hp
      rw [← Option.some.inj h]
      exact ⟨rfl, rfl, rfl, hp⟩

lemma steps_preserve (sz al : Nat) (v w : SoVec α)
    (h : Relation.ReflTransGen (SoVec.Step sz al) v w) (hwf : v.WF) :
    w.WF ∧ (v.isStackRep = false → w.isStackRep = false) := by
  induction h with
  | refl => exact ⟨hwf, id⟩
  | tail hab hbc ih =>
    obtain ⟨hwfb, hb⟩ := ih
    obtain ⟨hwfc, hc⟩ := step_preserves _ _ _ _ hbc hwfb
    exact ⟨hwfc, fun h2 => hc (hb h2)⟩

end Lemmas

section Claims

variable {α : Type}

/-- C1: for every container and every sequence of N pushes — each under the
caller precondition `length() < capacity()`, which (push never changes the
capacity) is the hypothesis `len + N ≤ cap` — followed by N pops, the popped
values are exactly the pushed values in reverse push order, and the length
after the N pops equals the length before the N pushes. -/
theorem c1_lifo_push_pop (sz : Nat) (v : SoVec α) (xs : List α) (cap : Nat)
    (hcap : SoVec.capacity sz v = some cap)
    (hfit : v.len + xs.length ≤ cap) :
    ((v.pushAll xs).popN xs.length).1 = xs.reverse.map some
    ∧ ((v.pushAll xs).popN xs.length).2.len = v.len := by
  obtain ⟨u, hu, hulen, -, -, -⟩ := pushAll_popN sz xs v cap hcap hfit
  rw [hu]
  exact ⟨rfl, hulen⟩

/-- Witness for C1: pushing `[10, 20]` on a fresh inline container and popping
twice returns `20` then `10` and an empty container. -/
theorem c1_lifo_push_pop_witness :
    SoVec.capacity 8 c1v = some 3 ∧ c1v.len + [10, 20].length ≤ 3
    ∧ ((c1v.pushAll [10, 20]).popN [10, 20].length).1 = [10, 20].reverse.map some
    ∧ ((c1v.pushAll [10, 20]).popN [10, 20].length).2.len = c1v.len := by
  refine ⟨rfl, by decide, ?_, ?_⟩
  · exact (c1_lifo_push_pop 8 c1v [10, 20] 3 rfl (by decide)).1
  · exact (c1_lifo_push_pop 8 c1v [10, 20] 3 rfl (by decide)).2

/-- C2 counterexample: on a heap-backed container of length 2 and capacity 2,
`reserve_exact (usize::MAX)` has a target `length + k` that exceeds the
capacity, yet the release-mode `usize` sum wraps to `1 ≤ 2`, so the call
survives as a silent no-op and the capacity stays 2 — not the claimed exact
target. -/
theorem c2_reserve_overflow_counterexample :
    SoVec.capacity 1 c2h = some 2 ∧ c2h.len ≤ 2
    ∧ 2 < c2h.len + (USIZE - 1)
    ∧ SoVec.reserve_exact 1 8 c2h (USIZE - 1) = some c2h
    ∧ SoVec.capacity 1 c2h ≠ some (c2h.len + (USIZE - 1)) := by
  exact ⟨rfl, by decide, by decide, rfl, by decide⟩

/-- C2 (amended): under the documented invariant `len ≤ cap` (with the
capacity a machine word), `reserve_exact k` is a no-op — the very state,
hence the capacity, is returned unchanged — whenever `k ≤ capacity - length`;
and whenever `target = length + k` exceeds the current capacity and the sum
does not overflow `usize`, any surviving result has capacity exactly `target`
(exact-fit growth), whether the container was inline or heap-backed. On an
overflowing sum, debug builds panic and release builds wrap it to at most
`length - 1`, a silent no-op. -/
theorem c2_reserve_exact_exact_fit (sz al k cap : Nat) (v : SoVec α)
    (hcap : SoVec.capacity sz v = some cap) (hlen : v.len ≤ cap)
    (hcapb : cap < USIZE) :
    (k ≤ cap - v.len → SoVec.reserve_exact sz al v k = some v)
    ∧ (cap < v.len + k → v.len + k < USIZE →
        ∀ w, SoVec.reserve_exact sz al v k = some w →
          SoVec.capacity sz w = some (v.len + k)) := by
  constructor
  · intro hk
    have hfit : v.len + k ≤ cap := by omega
    have hmod : (v.len + k) % USIZE = v.len + k := Nat.mod_eq_of_lt (by omega)
    unfold SoVec.reserve_exact
    rw [hcap]
    show (if (v.len + k) % USIZE ≤ cap then some v else _) = some v
    rw [hmod, if_pos hfit]
  · intro hlt hov w hw
    have hmod : (v.len + k) % USIZE = v.len + k := Nat.mod_eq_of_lt hov
    have hnfit : ¬ ((v.len + k) % USIZE ≤ cap) := by rw [hmod]; omega
    rcases v with ⟨buf, A⟩
    cases buf with
    | stack sb =>
      simp only [SoVec.reserve_exact, hcap, if_neg hnfit] at hw
      split at hw
      · exact Option.noConfusion hw
      · rename_i hb hhb
        rw [← Option.some.inj hw]
        show some (HeapBuffer.capacity _) = _
        simp only [HeapBuffer.capacity, HeapBuffer.set_len]
        rw [(heap_with_capacity_some hhb).1]
        rw [hmod]
    | heap hb =>
      simp only [SoVec.reserve_exact, hcap, if_neg hnfit] at hw
      split at hw
      · exact Option.noConfusion hw
      · rename_i hb2 hset
        rw [← Option.some.inj hw]
        show some (HeapBuffer.capacity hb2) = _
        simp only [HeapBuffer.capacity]
        rw [(heap_set_capacity_some hset).1]
        rw [hmod]

/-- Witness for C2 (amended): on a fresh inline container (capacity 31),
reserving 5 is a no-op, and reserving 40 grows to capacity exactly 40. -/
theorem c2_reserve_exact_exact_fit_witness :
    SoVec.capacity 1 c2v = some 31 ∧ c2v.len ≤ 31 ∧ 31 < USIZE
    ∧ (5 ≤ 31 - c2v.len → SoVec.reserve_exact 1 8 c2v 5 = some c2v)
    ∧ (31 < c2v.len + 40 → c2v.len + 40 < USIZE →
        ∀ w, SoVec.reserve_exact 1 8 c2v 40 = some w →
          SoVec.capacity 1 w = some (c2v.len + 40)) := by
  refine ⟨rfl, by decide, by decide, ?_, ?_⟩
  · exact (c2_reserve_exact_exact_fit 1 8 5 31 c2v rfl (by decide) (by decide)).1
  · exact (c2_reserve_exact_exact_fit 1 8 40 31 c2v rfl (by decide) (by decide)).2

/-- C3: `with_capacity c` yields an empty container whose capacity is at
least `c` for every `c ≥ 0`; and whenever `c` is at most the inline capacity
(including `c = 0`), the result is in inline mode with capacity equal to the
compile-time inline constant, not `c`. -/
theorem c3_with_capacity_bounds (sz al c icap : Nat) (A : Allocator)
    (v : SoVec α) (hic : StackBuffer.capacity sz = some icap)
    (hv : SoVec.with_capacity sz al c A = some v) :
    v.len = 0
    ∧ (∀ cp, SoVec.capacity sz v = some cp → c ≤ cp)
    ∧ (c ≤ icap → v.is_using_stack = true ∧ SoVec.capacity sz v = some icap) := by
  simp only [SoVec.with_capacity, hic] at hv
  by_cases hlt : icap < c
  · rw [if_pos hlt] at hv
    split at hv
    · exact Option.noConfusion hv
    · rename_i hb hhb
      rw [← Option.some.inj hv]
      obtain ⟨hc, hl, -⟩ := heap_with_capacity_some hhb
      refine ⟨?_, ?_, ?_⟩
      · show HeapBuffer.len hb = 0
        simp only [HeapBuffer.len]
        exact hl
      · intro cp hcp
        have : cp = hb.cap_ := by
          simp only [SoVec.to_heap, SoVec.capacity, HeapBuffer.capacity] at hcp
          exact (Option.some.inj hcp).symm
        omega
      · intro hle
        omega
  · rw [if_neg hlt] at hv
    rw [← Option.some.inj hv]
    refine ⟨rfl, ?_, ?_⟩
    · intro cp hcp
      simp only [SoVec.new, SoVec.capacity, hic] at hcp
      have : cp = icap := (Option.some.inj hcp).symm
      omega
    · intro _
      constructor
      · rfl
      · show StackBuffer.capacity sz = some icap
        exact hic

/-- Witness for C3: `with_capacity 0` over a one-byte element type returns
the fresh inline container with capacity 31. -/
theorem c3_with_capacity_bounds_witness :
    StackBuffer.capacity 1 = some 31
    ∧ SoVec.with_capacity 1 8 0 trivAlloc = some (SoVec.new trivAlloc : SoVec Nat)
    ∧ ((SoVec.new trivAlloc : SoVec Nat).len = 0
      ∧ (∀ cp, SoVec.capacity 1 (SoVec.new trivAlloc : SoVec Nat) = some cp → 0 ≤ cp)
      ∧ (0 ≤ 31 → (SoVec.new trivAlloc : SoVec Nat).is_using_stack = true
          ∧ SoVec.capacity 1 (SoVec.new trivAlloc : SoVec Nat) = some 31)) := by
  refine ⟨rfl, rfl, ?_⟩
  exact c3_with_capacity_bounds 1 8 0 31 trivAlloc (SoVec.new trivAlloc) rfl rfl

/-- C4: on a well-formed container with its elements initialized below the
length, `pop` returns the empty result exactly when the length is 0, leaving
the container unchanged in that case; otherwise it decrements the length by
one and returns the element that occupied the last position. (In the source
API `pop` is also the only method whose return type carries an explicit
empty result, `Option<T>`; every other operation returns no value at all or a
total one, failing only by killing the process.) -/
theorem c4_pop_semantics (v : SoVec α) (hwf : v.WF)
    (hinit : ∀ i, i < v.len → v.read i ≠ none) :
    ((v.pop).1 = none ↔ v.len = 0)
    ∧ (v.len = 0 → v.pop = ⟨none, v⟩)
    ∧ (v.len ≠ 0 →
        (v.pop).2.len = v.len - 1 ∧ (v.pop).1 = v.read (v.len - 1)) := by
  by_cases h0 : v.len = 0
  · have hp : v.pop = ⟨none, v⟩ := by
      unfold SoVec.pop
      rw [if_pos h0]
    rw [hp]
    exact ⟨by simp [h0], fun _ => rfl, fun hne => absurd h0 hne⟩
  · have hb2 : v.isStackRep = true → v.len - 1 < 256 := fun hs => by
      have := (WF_def v).mp hwf hs
      omega
    have hp := pop_eq v h0 hb2
    have hlast : v.read (v.len - 1) ≠ none := hinit _ (by omega)
    rw [hp]
    refine ⟨?_, fun h => absurd h h0, fun _ => ⟨?_, rfl⟩⟩
    · constructor
      · intro hnone
        exact absurd hnone hlast
      · intro h
        exact absurd h h0
    · show (v.set_len (v.len - 1)).len = v.len - 1
      exact set_len_len v _ (fun hs => by have := (WF_def v).mp hwf hs; omega)

/-- Witness for C4 at the empty inline container. -/
theorem c4_pop_semantics_witness :
    ((c4v.pop).1 = none ↔ c4v.len = 0)
    ∧ (c4v.len = 0 → c4v.pop = ⟨none, c4v⟩)
    ∧ (c4v.len ≠ 0 →
        (c4v.pop).2.len = c4v.len - 1 ∧ (c4v.pop).1 = c4v.read (c4v.len - 1)) :=
  c4_pop_semantics c4v (WF_new trivAlloc)
    (fun i hi => absurd hi (Nat.not_lt_zero i))

/-- C5: when `reserve_exact` triggers the inline→heap transition, the length
is preserved and every element present before the transition is at the same
index with the same value afterward (bulk-copy fidelity across the
representation switch). -/
theorem c5_transition_copy (sz al k : Nat) (v w : SoVec α)
    (hs : v.is_using_stack = true)
    (hres : SoVec.reserve_exact sz al v k = some w)
    (hw : w.is_using_stack = false) :
    w.len = v.len ∧ ∀ i, i < v.len → w.read i = v.read i := by
  rcases v with ⟨buf, A⟩
  cases buf with
  | heap hb => exact Bool.noConfusion hs
  | stack sb =>
    simp only [SoVec.reserve_exact, SoVec.capacity] at hres
    split at hres
    · exact Option.noConfusion hres
    · split at hres
      · rw [← Option.some.inj hres] at hw
        rw [hs] at hw
        exact Bool.noConfusion hw
      · split at hres
        · exact Option.noConfusion hres
        · rename_i hb hhb
          rw [← Option.some.inj hres]
          constructor
          · show HeapBuffer.len (HeapBuffer.set_len _ sb.len) = _
            simp only [HeapBuffer.len, HeapBuffer.set_len, SoVec.len,
              StackBuffer.len]
          · intro i hi
            simp only [SoVec.len, StackBuffer.len] at hi
            show (HeapBuffer.set_len _ sb.len).store i = sb.store i
            simp only [HeapBuffer.set_len, StackBuffer.len]
            rw [if_pos hi]

/-- Witness for C5: the two values `10, 20` of an inline container survive a
forced transition (reserve 40) at the same indices, and the length stays 2. -/
theorem c5_transition_copy_witness :
    c5v.is_using_stack = true
    ∧ SoVec.reserve_exact 1 8 c5v 40 = some c5w
    ∧ c5w.is_using_stack = false
    ∧ (c5w.len = c5v.len ∧ ∀ i, i < c5v.len → c5w.read i = c5v.read i) := by
  refine ⟨rfl, rfl, rfl, ?_⟩
  exact c5_transition_copy 1 8 40 c5v c5w rfl rfl rfl

/-- C6: heap mode is terminal. With a well-formed discriminant, along any
sequence of operations (each under its documented precondition) a container
that is not in inline mode never returns to inline mode; instantiated at each
intermediate state of a trace that starts inline, this says the inline→heap
transition happens at most once and is never reversed. -/
theorem c6_heap_mode_terminal (sz al : Nat) (v w : SoVec α) (hwf : v.WF)
    (hsteps : Relation.ReflTransGen (SoVec.Step sz al) v w)
    (hheap : v.is_using_stack = false) : w.is_using_stack = false := by
  obtain ⟨hwfw, habs⟩ := steps_preserve sz al v w hsteps hwf
  rw [is_using_stack_eq w hwfw]
  rw [is_using_stack_eq v hwf] at hheap
  exact habs hheap

/-- Witness for C6: a heap-backed container stays heap-backed across a pop
step. -/
theorem c6_heap_mode_terminal_witness :
    ((c6v.pop).2).is_using_stack = false :=
  c6_heap_mode_terminal 1 8 c6v (c6v.pop).2 (WF_of_heapRep c6v rfl)
    (Relation.ReflTransGen.single (SoVec.Step.pop c6v)) rfl

/-- C7: `shrink_to_fit` is a no-op on an inline container (the very state,
hence capacity and representation, is returned unchanged); on a heap-backed
container any surviving result has capacity equal to the current length. -/
theorem c7_shrink_to_fit_exact (sz al : Nat) (v : SoVec α) (hwf : v.WF) :
    (v.is_using_stack = true → SoVec.shrink_to_fit sz al v = some v)
    ∧ (v.is_using_stack = false → ∀ w, SoVec.shrink_to_fit sz al v = some w →
        SoVec.capacity sz w = some v.len) := by
  rcases v with ⟨buf, A⟩
  cases buf with
  | stack sb =>
    constructor
    · intro _
      rfl
    · intro hs
      have hlt : sb.len_ < 255 := hwf
      have hs2 : sb.len_ = 255 := by
        simpa [SoVec.is_using_stack, StackBuffer.is_available] using hs
      exfalso
      omega
  | heap hb =>
    constructor
    · intro hs
      exact Bool.noConfusion hs
    · intro _ w hw
      simp only [SoVec.shrink_to_fit] at hw
      split at hw
      · exact Option.noConfusion hw
      · rename_i hb2 hset
        rw [← Option.some.inj hw]
        show some (HeapBuffer.capacity hb2) = _
        simp only [HeapBuffer.capacity]
        rw [(heap_set_capacity_some hset).1]

/-- Witness for C7: a no-op on a fresh inline container, and capacity 2 after
shrinking a heap-backed container of length 2 and capacity 5. -/
theorem c7_shrink_to_fit_exact_witness :
    (c7s.is_using_stack = true ∧ SoVec.shrink_to_fit 1 8 c7s = some c7s)
    ∧ (c7v.is_using_stack = false ∧ SoVec.shrink_to_fit 1 8 c7v = some c7w
        ∧ SoVec.capacity 1 c7w = some c7v.len) := by
  refine ⟨⟨rfl, ?_⟩, rfl, rfl, ?_⟩
  · exact (c7_shrink_to_fit_exact 1 8 c7s (WF_new trivAlloc)).1 rfl
  · exact (c7_shrink_to_fit_exact 1 8 c7v (WF_of_heapRep c7v rfl)).2 rfl c7w rfl

/-- C8 failing input, evaluated: `with_capacity 40` over a one-byte element
type yields a heap-backed container of length 0; `shrink_to_fit` then passes
`new_capacity = 0` to `HeapBuffer::set_capacity` — violating that function's
own documented nonzero precondition and its debug assertion — and the
surviving release-mode state is still heap-backed with capacity 0,
contradicting the claimed invariant that the capacity stays strictly positive
while heap-backed. -/
theorem c8_empty_shrink_capacity_zero :
    c8v.is_using_stack = false ∧ c8v.len = 0
    ∧ SoVec.shrink_to_fit 1 8 c8v = some c8w
    ∧ c8w.is_using_stack = false ∧ SoVec.capacity 1 c8w = some 0 :=
  ⟨rfl, rfl, rfl, rfl, rfl⟩

/-- C9: on both allocation paths — the initial allocation and the
reallocation — an overflow of the byte-size computation
(`capacity * size_of::<T>()`) and a null allocator result are fatal: the
operation ends in `none`, the model of immediate process termination at the
point of detection, and no recoverable error value is returned to the
caller. -/
theorem c9_allocation_failures_fatal (sz al cap : Nat) (A : Allocator)
    (hb : HeapBuffer α) :
    (USIZE ≤ cap * sz →
      HeapBuffer.with_capacity sz al cap A = (none : Option (HeapBuffer α)))
    ∧ (A.alloc (cap * sz) al = 0 →
      HeapBuffer.with_capacity sz al cap A = (none : Option (HeapBuffer α)))
    ∧ (USIZE ≤ cap * sz → HeapBuffer.set_capacity sz al hb cap A = none)
    ∧ (A.realloc hb.ptr (sz * hb.cap_) al (cap * sz) = 0 →
      HeapBuffer.set_capacity sz al hb cap A = none) := by
  refine ⟨?_, ?_, ?_, ?_⟩
  · intro hov
    unfold HeapBuffer.with_capacity
    rw [checked_mul_eq_none hov]
  · intro hnull
    unfold HeapBuffer.with_capacity
    cases hcm : checked_mul cap sz with
    | none => rfl
    | some size =>
      obtain ⟨hlt, rfl⟩ := checked_mul_eq_some hcm
      dsimp only []
      cases hL : Layout.from_size_align (cap * sz) al with
      | none => rfl
      | some L =>
        obtain ⟨h1, h2⟩ := from_size_align_some hL
        dsimp only []
        rw [h1, h2, hnull, if_pos rfl]
  · intro hov
    unfold HeapBuffer.set_capacity
    rw [checked_mul_eq_none hov]
  · intro hnull
    unfold HeapBuffer.set_capacity
    cases hcm : checked_mul cap sz with
    | none => rfl
    | some nsize =>
      obtain ⟨hlt, rfl⟩ := checked_mul_eq_some hcm
      dsimp only [HeapBuffer.layout]
      rw [hnull, if_pos rfl]

/-- Witness for C9: an overflowing capacity request is fatal under the
always-succeeding allocator, and a modest request is fatal under the
always-null allocator, on both paths. -/
theorem c9_allocation_failures_fatal_witness :
    (USIZE ≤ USIZE * 1
      ∧ HeapBuffer.with_capacity 1 8 USIZE trivAlloc = (none : Option (HeapBuffer Nat))
      ∧ HeapBuffer.set_capacity 1 8 hbW USIZE trivAlloc = none)
    ∧ (nullAlloc.alloc (5 * 1) 8 = 0
      ∧ HeapBuffer.with_capacity 1 8 5 nullAlloc = (none : Option (HeapBuffer Nat))
      ∧ nullAlloc.realloc hbW.ptr (1 * hbW.cap_) 8 (5 * 1) = 0
      ∧ HeapBuffer.set_capacity 1 8 hbW 5 nullAlloc = none) := by
  have hov : USIZE ≤ USIZE * 1 := by omega
  refine ⟨⟨hov, ?_, ?_⟩, rfl, ?_, rfl, ?_⟩
  · exact (c9_allocation_failures_fatal 1 8 USIZE trivAlloc hbW).1 hov
  · exact (c9_allocation_failures_fatal 1 8 USIZE trivAlloc hbW).2.2.1 hov
  · exact (c9_allocation_failures_fatal 1 8 5 nullAlloc hbW).2.1 rfl
  · exact (c9_allocation_failures_fatal 1 8 5 nullAlloc hbW).2.2.2 rfl

/-- C10: the inline capacity computation divides the region size by
`size_of::<T>()` with no zero guard, so for a zero-sized element type it
fails at runtime (`none`, the model of the division-by-zero panic) instead of
returning a defined capacity — and so do `capacity`, `with_capacity` and
`reserve_exact` on an inline container of such a type. -/
theorem c10_zero_sized_capacity_panics (al c k : Nat) (A : Allocator)
    (v : SoVec α) (hs : v.is_using_stack = true) :
    StackBuffer.capacity 0 = none
    ∧ SoVec.capacity 0 v = none
    ∧ SoVec.with_capacity 0 al c A = (none : Option (SoVec α))
    ∧ SoVec.reserve_exact 0 al v k = none := by
  have hsb : StackBuffer.capacity 0 = none := by
    unfold StackBuffer.capacity
    rw [if_pos rfl]
  have hcap : SoVec.capacity 0 v = none := by
    rcases v with ⟨buf, A2⟩
    cases buf with
    | stack sb => simpa [SoVec.capacity] using hsb
    | heap hb => exact Bool.noConfusion hs
  refine ⟨hsb, hcap, ?_, ?_⟩
  · unfold SoVec.with_capacity
    rw [hsb]
  · unfold SoVec.reserve_exact
    rw [hcap]

/-- Witness for C10 at a fresh inline container of a zero-sized type. -/
theorem c10_zero_sized_capacity_panics_witness :
    c10v.is_using_stack = true
    ∧ (StackBuffer.capacity 0 = none
      ∧ SoVec.capacity 0 c10v = none
      ∧ SoVec.with_capacity 0 8 3 trivAlloc = (none : Option (SoVec Unit))
      ∧ SoVec.reserve_exact 0 8 c10v 2 = none) :=
  ⟨rfl, c10_zero_sized_capacity_panics 8 3 2 trivAlloc c10v rfl⟩

end Claims

end MouseSovec
